import Mathlib

namespace Teap

/-- Error kinds surfaced by the directory gateway or the Python runtime. -/
inductive Err where
  | notFound
  | alreadyExists
  | typeError
deriving DecidableEq

/-- A division or franchise record as produced by the serializers: machine name plus display name. -/
structure DivisionRec where
  machine_name : String
  display_name : String
deriving DecidableEq

/-- A team entry held in the directory. -/
structure TeamRec where
  machine_name : String
  display_name : String
deriving DecidableEq

/-- The kind of group a membership record points at; edap exposes a distinct call per kind. -/
inductive GroupRef where
  | team (name : String)
  | franchise (name : String)
  | division (name : String)
  | other (name : String)
deriving DecidableEq

/-- Write operations issued to the directory gateway, recorded in invocation order. -/
inductive Call where
  | addUser (uid : String)
  | createTeam (machine display : String)
  | createFranchise (machine : String)
  | memberOfTeam (uid team : String)
  | memberOfFranchise (uid franchise : String)
  | memberOfDivision (uid division : String)
  | memberOf (uid group : String)
deriving DecidableEq

/-- Modelled from the spec: the directory state behind the DirectoryGateway capability set of
spec section 6; the edap client library is an external collaborator absent from the repository.
The state holds users, divisions, franchises, teams, memberships, the owning pair of each team
as returned by getTeamOwningPair, and the label table behind label_franchise. -/
structure DirState where
  users : List String
  divisions : List DivisionRec
  franchises : List DivisionRec
  teams : List TeamRec
  memberships : List (String × GroupRef)
  pairs : List (String × String × String)
  labels : List (String × String)
deriving DecidableEq

/-- Result of running a modelled operation: final directory state, the gateway write calls
that were issued (an attempted call is recorded even when the gateway rejects it), and the
error that propagated, if any. -/
structure Outcome where
  state : DirState
  calls : List Call
  err : Option Err
deriving DecidableEq

/-- Sequencing of two statements of a Python method: when the first raises, the second is
never reached; otherwise the issued calls accumulate in order. -/
def andThen (o : Outcome) (f : DirState → Outcome) : Outcome :=
  match o.err with
  | some _ => o
  | none => ⟨(f o.state).state, o.calls ++ (f o.state).calls, (f o.state).err⟩

def teamNames (st : DirState) : List String := st.teams.map TeamRec.machine_name

def franchiseNames (st : DirState) : List String := st.franchises.map DivisionRec.machine_name

def divisionNames (st : DirState) : List String := st.divisions.map DivisionRec.machine_name

/-- Lookup of the owning pair of a team among the directory pair records. -/
def lookup_pair (t : String) : List (String × String × String) → Option (String × String)
  | [] => none
  | (t0, f, d) :: rest => if t0 = t then some (f, d) else lookup_pair t rest

/-- Lookup of the directory label of a franchise machine name. -/
def lookupLabel (m : String) : List (String × String) → String
  | [] => m
  | (k, v) :: rest => if k = m then v else lookupLabel m rest

/-- Modelled from the spec: edap label_franchise, the label the directory associates with a
franchise machine name. -/
def label_franchise (st : DirState) (m : String) : String :=
  lookupLabel m st.labels

/-- The encode call on the label string; byte-level encoding is not modelled, the text value
is preserved. -/
def encodeUTF8 (s : String) : String := s

/-- Modelled from the spec: the pure, deterministic, order-sensitive franchise-then-division
combination used for team machine names (edap make_team_machine_name). -/
def make_team_machine_name (f d : String) : String := f ++ "-" ++ d

/-- Modelled from the spec: the franchise-then-division combination used for team display
names (edap make_team_display_name). -/
def make_team_display_name (f d : String) : String := f ++ " - " ++ d

/-- Modelled from the spec: edap add_user creates the user record, failing when the uid is
already present. -/
def add_user (uid : String) (st : DirState) : Outcome :=
  if uid ∈ st.users then ⟨st, [Call.addUser uid], some Err.alreadyExists⟩
  else ⟨{ st with users := uid :: st.users }, [Call.addUser uid], none⟩

/-- Modelled from the spec: edap make_user_member_of_team adds a membership record for an
existing team and is rejected with NotFound when the team is absent. -/
def make_user_member_of_team (uid t : String) (st : DirState) : Outcome :=
  if t ∈ teamNames st then
    ⟨{ st with memberships := (uid, GroupRef.team t) :: st.memberships },
      [Call.memberOfTeam uid t], none⟩
  else ⟨st, [Call.memberOfTeam uid t], some Err.notFound⟩

/-- Modelled from the spec: edap make_user_member_of_franchise for an existing franchise group. -/
def make_user_member_of_franchise (uid f : String) (st : DirState) : Outcome :=
  if f ∈ franchiseNames st then
    ⟨{ st with memberships := (uid, GroupRef.franchise f) :: st.memberships },
      [Call.memberOfFranchise uid f], none⟩
  else ⟨st, [Call.memberOfFranchise uid f], some Err.notFound⟩

/-- Modelled from the spec: edap make_uid_member_of_division for an existing division group. -/
def make_uid_member_of_division (uid d : String) (st : DirState) : Outcome :=
  if d ∈ divisionNames st then
    ⟨{ st with memberships := (uid, GroupRef.division d) :: st.memberships },
      [Call.memberOfDivision uid d], none⟩
  else ⟨st, [Call.memberOfDivision uid d], some Err.notFound⟩

/-- Modelled from the spec: edap make_uid_member_of, the generic group membership call used
for the initial groups of a new user. -/
def make_uid_member_of (uid g : String) (st : DirState) : Outcome :=
  ⟨{ st with memberships := (uid, GroupRef.other g) :: st.memberships },
    [Call.memberOf uid g], none⟩

/-- Modelled from the spec: edap create_team, rejected with AlreadyExists when a team with
that machine name is present. -/
def create_team (m d : String) (st : DirState) : Outcome :=
  if m ∈ teamNames st then ⟨st, [Call.createTeam m d], some Err.alreadyExists⟩
  else ⟨{ st with teams := ⟨m, d⟩ :: st.teams }, [Call.createTeam m d], none⟩

/-- Modelled from the spec: edap create_franchise; the directory stores the franchise entry
with its label as the display attribute. -/
def create_franchise (m : String) (st : DirState) : Outcome :=
  if m ∈ franchiseNames st then ⟨st, [Call.createFranchise m], some Err.alreadyExists⟩
  else ⟨{ st with franchises := ⟨m, label_franchise st m⟩ :: st.franchises },
    [Call.createFranchise m], none⟩

/-- Modelled from the spec: edap get_team_component_units, the getTeamOwningPair capability;
it fails with NotFound for an absent team and returns the owning pair, or none for an
unpaired team such as everybody. -/
def get_team_component_units (st : DirState) (t : String) : Except Err (Option (String × String)) :=
  if t ∈ teamNames st then Except.ok (lookup_pair t st.pairs) else Except.error Err.notFound

def EVERYBODY_MACHINE_NAME : String := "everybody"

def EVERYBODY_DISPLAY_NAME : String := "Everybody"

/-- LdapTeam.get_everybody_team from models.py: fetch the everybody team, creating it first
when it is absent; only the write calls are recorded. -/
def LdapTeam.get_everybody_team (st : DirState) : DirState × List Call :=
  if EVERYBODY_MACHINE_NAME ∈ teamNames st then (st, [])
  else
    let o := create_team EVERYBODY_MACHINE_NAME EVERYBODY_DISPLAY_NAME st
    (o.state, o.calls)

/-- The user object of models.py; groups defaults to none when the caller passes no groups
argument, mirroring the Python default of None. -/
structure UserRec where
  uid : String
  groups : Option (List String)

/-- The membership loop of LdapUser.create over the groups list. -/
def member_loop (uid : String) : List String → DirState → Outcome
  | [], st => ⟨st, [], none⟩
  | g :: rest, st => andThen (make_uid_member_of uid g st) (member_loop uid rest)

/-- LdapUser.create from models.py: add the user record, add a membership for each group,
then add the everybody team membership last. Iterating groups raises when groups is none. -/
def LdapUser.create (u : UserRec) (st : DirState) : Outcome :=
  andThen (add_user u.uid st) (fun st1 =>
    match u.groups with
    | none => ⟨st1, [], some Err.typeError⟩
    | some gs =>
      andThen (member_loop u.uid gs st1) (fun st2 =>
        let p := LdapTeam.get_everybody_team st2
        let o4 := make_user_member_of_team u.uid EVERYBODY_MACHINE_NAME p.1
        ⟨o4.state, p.2 ++ o4.calls, o4.err⟩))

/-- LdapUser.add_to_team from models.py: the team membership call is issued first, then the
owning pair is looked up and the franchise and division membership calls follow; unpacking a
missing pair raises in Python, modelled as a typeError. -/
def LdapUser.add_to_team (uid t : String) (st : DirState) : Outcome :=
  andThen (make_user_member_of_team uid t st) (fun st1 =>
    match get_team_component_units st1 t with
    | Except.error e => ⟨st1, [], some e⟩
    | Except.ok none => ⟨st1, [], some Err.typeError⟩
    | Except.ok (some (f, d)) =>
      andThen (make_user_member_of_franchise uid f st1) (make_uid_member_of_division uid d))

/-- The team record derived for one division inside LdapFranchise.create_teams: machine and
display names are combined franchise-then-division. -/
def mkTeamFor (fm fd : String) (d : DivisionRec) : TeamRec :=
  ⟨make_team_machine_name fm d.machine_name, make_team_display_name fd d.display_name⟩

/-- The team record derived for one franchise inside Division.create_teams: names are still
combined franchise-then-division. -/
def mkTeamOf (dm dd : String) (f : DivisionRec) : TeamRec :=
  ⟨make_team_machine_name f.machine_name dm, make_team_display_name f.display_name dd⟩

/-- The shared loop body of both create_teams methods: one create_team call per item, in list
order, with no per-item error handling, so a rejection propagates and aborts the loop. -/
def team_batch_loop (mk : DivisionRec → TeamRec) : List DivisionRec → DirState → Outcome
  | [], st => ⟨st, [], none⟩
  | d :: rest, st =>
    andThen (create_team (mk d).machine_name (mk d).display_name st) (team_batch_loop mk rest)

/-- LdapFranchise.create_teams from models.py: create a team for every division currently in
the directory, deriving names franchise-then-division. -/
def LdapFranchise.create_teams (fm fd : String) (st : DirState) : Outcome :=
  team_batch_loop (mkTeamFor fm fd) st.divisions st

/-- Division.create_teams from models.py: create a team for every franchise currently in the
directory. -/
def Division.create_teams (dm dd : String) (st : DirState) : Outcome :=
  team_batch_loop (mkTeamOf dm dd) st.franchises st

/-- LdapFranchise.create from models.py: create the franchise entry, overwrite the display
name of the object with the encoded directory label of its machine name, then run
create_teams; the second component of the result is the final display_name field. -/
def LdapFranchise.create (machine callerDisplay : String) (st : DirState) : Outcome × String :=
  let o1 := create_franchise machine st
  match o1.err with
  | some _ => (o1, callerDisplay)
  | none =>
    let nd := encodeUTF8 (label_franchise o1.state machine)
    let o2 := LdapFranchise.create_teams machine nd o1.state
    (⟨o2.state, o1.calls ++ o2.calls, o2.err⟩, nd)

/-- One merged entry of merge_divisions from utils.py. An outer none in a display-name field
means the dictionary key is absent; the inner option of ldap_display_name mirrors the Python
value, which is None when the raw division has no description attribute. -/
structure MergedEntry where
  exists_in_config : Bool
  exists_in_ldap : Bool
  config_display_name : Option String
  ldap_display_name : Option (Option String)
deriving DecidableEq

/-- A raw division as returned by the directory: the first cn value, decoded, and the decoded
first description value when present. -/
structure LdapDivisionRaw where
  cn : String
  description : Option String
deriving DecidableEq

/-- Lookup in the merged dictionary, keyed by machine name. -/
def alookup (k : String) : List (String × MergedEntry) → Option MergedEntry
  | [] => none
  | (k0, v) :: rest => if k0 = k then some v else alookup k rest

/-- Dictionary assignment: replace the value at an existing key in place, else append,
mirroring insertion-ordered Python dictionaries. -/
def aset (k : String) (v : MergedEntry) : List (String × MergedEntry) → List (String × MergedEntry)
  | [] => [(k, v)]
  | (k0, v0) :: rest => if k0 = k then (k, v) :: rest else (k0, v0) :: aset k v rest

/-- The first loop of merge_divisions: one entry per config division. -/
def merge_loop1 : List (String × String) → List (String × MergedEntry) → List (String × MergedEntry)
  | [], m => m
  | (k, dn) :: rest, m => merge_loop1 rest (aset k ⟨true, false, some dn, none⟩ m)

/-- The body of the second loop of merge_divisions: update an entry already seen in config,
else insert a directory-only entry. -/
def merge_step (m : List (String × MergedEntry)) (ld : LdapDivisionRaw) : List (String × MergedEntry) :=
  match alookup ld.cn m with
  | some e => aset ld.cn { e with exists_in_ldap := true, ldap_display_name := some ld.description } m
  | none => aset ld.cn ⟨false, true, none, some ld.description⟩ m

/-- The second loop of merge_divisions over the raw directory division list. -/
def merge_loop2 : List LdapDivisionRaw → List (String × MergedEntry) → List (String × MergedEntry)
  | [], m => m
  | ld :: rest, m => merge_loop2 rest (merge_step m ld)

/-- merge_divisions from utils.py, as a pure function from both sources to the merged
dictionary. -/
def merge_divisions (cfg : List (String × String)) (lds : List LdapDivisionRaw) : List (String × MergedEntry) :=
  merge_loop2 lds (merge_loop1 cfg [])

def cfgKeys (cfg : List (String × String)) : List String := cfg.map Prod.fst

def ldapKeys (lds : List LdapDivisionRaw) : List String := lds.map LdapDivisionRaw.cn

/-- The update applied to an optional previous entry by one directory division, matching the
two branches of the second loop. -/
def updE (o : Option MergedEntry) (dd : Option String) : MergedEntry :=
  match o with
  | some e => { e with exists_in_ldap := true, ldap_display_name := some dd }
  | none => ⟨false, true, none, some dd⟩

/-- The groupware folder state: existing folder paths plus oracles naming the create and
grant requests the gateway rejects. -/
structure NxcState where
  folders : List String
  createFails : List String
  grantFails : List (String × String)
deriving DecidableEq

/-- Calls issued to the groupware folder gateway. -/
inductive NxcCall where
  | createFolder (path : String)
  | grantAccess (folderId group : String)
  | setPermission (folderId group perm : String)
deriving DecidableEq

/-- Result of one groupware gateway call: state, issued calls, the is_ok flag, and the folder
id carried in the response data. -/
structure NxcRes where
  state : NxcState
  calls : List NxcCall
  ok : Bool
  id : String
deriving DecidableEq

/-- Modelled from the spec: the FolderGateway createFolder capability; the folder id is the
path, and the response carries it whether or not the call succeeded. -/
def create_group_folder (p : String) (st : NxcState) : NxcRes :=
  ⟨if p ∈ st.createFails then st else { st with folders := p :: st.folders },
   [NxcCall.createFolder p], decide (p ∉ st.createFails), p⟩

/-- Modelled from the spec: the FolderGateway grantAccess capability. -/
def grant_access_to_group_folder (fid grp : String) (st : NxcState) : NxcRes :=
  ⟨st, [NxcCall.grantAccess fid grp], decide ((fid, grp) ∉ st.grantFails), fid⟩

/-- Modelled from the spec: the FolderGateway setPermission capability. -/
def set_permissions_to_group_folder (fid grp perm : String) (st : NxcState) : NxcRes :=
  ⟨st, [NxcCall.setPermission fid grp perm], true, fid⟩

/-- Modelled from the spec: get_group_folder of backend.nextcloud.utils, a file of this
repository that is not under src; per the spec it reports whether the named top-level
container folder already exists. -/
def get_group_folder (name : String) (st : NxcState) : Bool := decide (name ∈ st.folders)

def GROUP_FOLDER : String := "Franchises"

/-- Franchise.create_main_folder from models.py: create the container folder, grant the
everybody team access on it, and set its permission to read. -/
def Franchise.create_main_folder (st : NxcState) : NxcState × List NxcCall :=
  let r1 := create_group_folder GROUP_FOLDER st
  let r2 := grant_access_to_group_folder r1.id EVERYBODY_MACHINE_NAME r1.state
  let r3 := set_permissions_to_group_folder r1.id EVERYBODY_MACHINE_NAME "1" r2.state
  (r3.state, r1.calls ++ r2.calls ++ r3.calls)

/-- Franchise.create_folder from models.py: ensure the container exists, create the
franchise subfolder, grant the franchise group and the everybody team access, and return the
conjunction of the three is_ok flags. -/
def Franchise.create_folder (folder_name : String) (st : NxcState) : NxcState × List NxcCall × Bool :=
  let pre : NxcState × List NxcCall :=
    if get_group_folder GROUP_FOLDER st then (st, [])
    else Franchise.create_main_folder st
  let r1 := create_group_folder (GROUP_FOLDER ++ "/" ++ folder_name) pre.1
  let r2 := grant_access_to_group_folder r1.id folder_name r1.state
  let r3 := grant_access_to_group_folder r1.id EVERYBODY_MACHINE_NAME r2.state
  (r3.state, pre.2 ++ r1.calls ++ r2.calls ++ r3.calls, r1.ok && r2.ok && r3.ok)

/-- Occurrence count of one call in an issued call list. -/
def countCall (c : NxcCall) : List NxcCall → Nat
  | [] => 0
  | x :: rest => (if x = c then 1 else 0) + countCall c rest

/-- Example directory state used by the concrete witnesses: two divisions, one franchise, the
everybody team, and a label table entry for the west franchise. -/
def exSt1 : DirState :=
  ⟨[], [⟨"ops", "Ops"⟩, ⟨"sales", "Sales"⟩], [⟨"east", "East"⟩],
   [⟨"everybody", "Everybody"⟩], [], [], [("west", "West Label")]⟩

/-- Directory state in which the team of the first division already exists. -/
def stC3 : DirState :=
  ⟨[], [⟨"ops", "Ops"⟩, ⟨"sales", "Sales"⟩], [], [⟨"east-ops", "East - Ops"⟩], [], [], []⟩

/-- Directory state with one paired team, for the cascade witness. -/
def stC2 : DirState :=
  ⟨[], [⟨"ops", "Ops"⟩], [⟨"east", "East"⟩], [⟨"east-ops", "East - Ops"⟩], [],
   [("east-ops", "east", "ops")], []⟩

/-- Empty directory state. -/
def stC6 : DirState := ⟨[], [], [], [], [], [], []⟩

/-- Directory state holding only the unpaired everybody team. -/
def stC7 : DirState := ⟨[], [], [], [⟨"everybody", "Everybody"⟩], [], [], []⟩

/-- Example config mapping for the reconciliation witness. -/
def cfgEx : List (String × String) := [("na", "North America"), ("na2", "X")]

/-- Example raw directory division list for the reconciliation witness. -/
def ldsEx : List LdapDivisionRaw := [⟨"na", some "NA"⟩, ⟨"eu", none⟩]

/-- Empty groupware state for the folder witness. -/
def nxcEx : NxcState := ⟨[], [], []⟩

theorem andThen_some (s : DirState) (c : List Call) (e : Err) (f : DirState → Outcome) :
    andThen ⟨s, c, some e⟩ f = ⟨s, c, some e⟩ := rfl

theorem andThen_none (s : DirState) (c : List Call) (f : DirState → Outcome) :
    andThen ⟨s, c, none⟩ f = ⟨(f s).state, c ++ (f s).calls, (f s).err⟩ := rfl

theorem teamNames_cons (st : DirState) (tm : TeamRec) :
    teamNames { st with teams := tm :: st.teams } = tm.machine_name :: teamNames st := rfl

theorem teamNames_memb (st : DirState) (p : String × GroupRef) :
    teamNames { st with memberships := p :: st.memberships } = teamNames st := rfl

theorem team_batch_loop_ok (mk : DivisionRec → TeamRec) (l : List DivisionRec) (st : DirState)
    (h : (team_batch_loop mk l st).err = none) :
    (team_batch_loop mk l st).state = { st with teams := (l.map mk).reverse ++ st.teams } := by
  induction l generalizing st with
  | nil => simp [team_batch_loop]
  | cons d rest ih =>
    by_cases hc : (mk d).machine_name ∈ teamNames st
    · simp only [team_batch_loop, create_team, if_pos hc, andThen_some] at h
      exact absurd h (by simp)
    · simp only [team_batch_loop, create_team, if_neg hc, andThen_none] at h ⊢
      rw [ih _ h]
      simp [List.append_assoc]

theorem team_batch_loop_fail (mk : DivisionRec → TeamRec) (l : List DivisionRec) (st : DirState)
    (h : ∃ d ∈ l, (mk d).machine_name ∈ teamNames st) :
    ((team_batch_loop mk l st).err).isSome := by
  induction l generalizing st with
  | nil => simp at h
  | cons d rest ih =>
    by_cases hc : (mk d).machine_name ∈ teamNames st
    · simp only [team_batch_loop, create_team, if_pos hc, andThen_some]
      rfl
    · obtain ⟨d0, hd0, hmem⟩ := h
      rcases List.mem_cons.mp hd0 with heq | hd0rest
      · rw [heq] at hmem
        exact absurd hmem hc
      · simp only [team_batch_loop, create_team, if_neg hc, andThen_none]
        exact ih _ ⟨d0, hd0rest, by rw [teamNames_cons]; exact List.mem_cons_of_mem _ hmem⟩

theorem team_batch_loop_head_exists (mk : DivisionRec → TeamRec) (d : DivisionRec)
    (rest : List DivisionRec) (st : DirState) (hc : (mk d).machine_name ∈ teamNames st) :
    team_batch_loop mk (d :: rest) st =
      ⟨st, [Call.createTeam (mk d).machine_name (mk d).display_name], some Err.alreadyExists⟩ := by
  simp only [team_batch_loop, create_team, if_pos hc, andThen_some]

theorem teamNames_after_batch (mk : DivisionRec → TeamRec) (l : List DivisionRec) (st : DirState) :
    teamNames { st with teams := (l.map mk).reverse ++ st.teams } =
      ((l.map mk).reverse.map TeamRec.machine_name) ++ teamNames st := by
  simp [teamNames]

/-- C1: after LdapFranchise.create_teams runs to completion against a directory holding
division set D, a team with the machine name derived franchise-then-division exists for
every division in D, and every team of the final state is either preexisting or one of the
derived teams, so the call creates no team outside the derived set; symmetrically,
Division.create_teams covers every existing franchise; and the derivation is
order-sensitive. -/
theorem C1_cross_product_completeness : ∀ fm fd dm dd st,
    ((LdapFranchise.create_teams fm fd st).err = none →
      (∀ d ∈ st.divisions,
          make_team_machine_name fm d.machine_name ∈
            teamNames (LdapFranchise.create_teams fm fd st).state) ∧
      (∀ t ∈ teamNames (LdapFranchise.create_teams fm fd st).state,
          t ∈ teamNames st ∨ ∃ d ∈ st.divisions, t = make_team_machine_name fm d.machine_name)) ∧
    ((Division.create_teams dm dd st).err = none →
      (∀ f ∈ st.franchises,
          make_team_machine_name f.machine_name dm ∈
            teamNames (Division.create_teams dm dd st).state) ∧
      (∀ t ∈ teamNames (Division.create_teams dm dd st).state,
          t ∈ teamNames st ∨ ∃ f ∈ st.franchises, t = make_team_machine_name f.machine_name dm)) ∧
    make_team_machine_name "east" "ops" ≠ make_team_machine_name "ops" "east" := by
  intro fm fd dm dd st
  refine ⟨?_, ?_, by decide⟩
  · intro h
    have hst := team_batch_loop_ok (mkTeamFor fm fd) st.divisions st h
    constructor
    · intro d hd
      show make_team_machine_name fm d.machine_name ∈
        teamNames (team_batch_loop (mkTeamFor fm fd) st.divisions st).state
      rw [hst, teamNames_after_batch]
      have h1 : mkTeamFor fm fd d ∈ (st.divisions.map (mkTeamFor fm fd)).reverse :=
        List.mem_reverse.mpr (List.mem_map_of_mem _ hd)
      exact List.mem_append.mpr (Or.inl (List.mem_map_of_mem _ h1))
    · intro t ht
      rw [show LdapFranchise.create_teams fm fd st =
          team_batch_loop (mkTeamFor fm fd) st.divisions st from rfl, hst,
        teamNames_after_batch] at ht
      rcases List.mem_append.mp ht with hl | hr
      · obtain ⟨tr, htr, rfl⟩ := List.mem_map.mp hl
        obtain ⟨d, hd, rfl⟩ := List.mem_map.mp (List.mem_reverse.mp htr)
        exact Or.inr ⟨d, hd, rfl⟩
      · exact Or.inl hr
  · intro h
    have hst := team_batch_loop_ok (mkTeamOf dm dd) st.franchises st h
    constructor
    · intro f hf
      show make_team_machine_name f.machine_name dm ∈
        teamNames (team_batch_loop (mkTeamOf dm dd) st.franchises st).state
      rw [hst, teamNames_after_batch]
      have h1 : mkTeamOf dm dd f ∈ (st.franchises.map (mkTeamOf dm dd)).reverse :=
        List.mem_reverse.mpr (List.mem_map_of_mem _ hf)
      exact List.mem_append.mpr (Or.inl (List.mem_map_of_mem _ h1))
    · intro t ht
      rw [show Division.create_teams dm dd st =
          team_batch_loop (mkTeamOf dm dd) st.franchises st from rfl, hst,
        teamNames_after_batch] at ht
      rcases List.mem_append.mp ht with hl | hr
      · obtain ⟨tr, htr, rfl⟩ := List.mem_map.mp hl
        obtain ⟨f, hf, rfl⟩ := List.mem_map.mp (List.mem_reverse.mp htr)
        exact Or.inr ⟨f, hf, rfl⟩
      · exact Or.inl hr

theorem C1_witness :
    make_team_machine_name "east" "ops" ∈
      teamNames (LdapFranchise.create_teams "east" "East" exSt1).state ∧
    make_team_machine_name "east" "legal" ∈
      teamNames (Division.create_teams "legal" "Legal" exSt1).state := by
  have h := C1_cross_product_completeness "east" "East" "legal" "Legal" exSt1
  refine ⟨?_, ?_⟩
  · exact (h.1 (by decide)).1 ⟨"ops", "Ops"⟩ (by decide)
  · exact (h.2.1 (by decide)).1 ⟨"east", "East"⟩ (by decide)

/-- C3 counterexample: with the east-ops team already present, the derivation batch for the
east franchise aborts at the first rejection: the outcome is an AlreadyExists error, the
remaining east-sales pair is never attempted, and only one create call was issued, against
the claim that failures are skipped, remaining pairs attempted, and counts reported. -/
theorem C3_counterexample :
    (LdapFranchise.create_teams "east" "East" stC3).err = some Err.alreadyExists ∧
    "east-sales" ∉ teamNames (LdapFranchise.create_teams "east" "East" stC3).state ∧
    (LdapFranchise.create_teams "east" "East" stC3).calls =
      [Call.createTeam "east-ops" "East - Ops"] := by decide

/-- C3 amended: the create_teams batches perform no per-item error handling and report no
counts: whenever some derived team already exists, the run raises instead of skipping, and a
rejection at the first item aborts the whole batch with the remaining pairs unattempted and
the state unchanged; hence a second run over the same inputs fails rather than reporting
all-skipped. -/
theorem C3_amended_abort_on_rejection : ∀ m1 m2 st,
    ((∃ d ∈ st.divisions, make_team_machine_name m1 d.machine_name ∈ teamNames st) →
        ((LdapFranchise.create_teams m1 m2 st).err).isSome) ∧
    (∀ d rest, st.divisions = d :: rest →
        make_team_machine_name m1 d.machine_name ∈ teamNames st →
        LdapFranchise.create_teams m1 m2 st =
          ⟨st, [Call.createTeam (make_team_machine_name m1 d.machine_name)
                 (make_team_display_name m2 d.display_name)], some Err.alreadyExists⟩) ∧
    ((∃ f ∈ st.franchises, make_team_machine_name f.machine_name m1 ∈ teamNames st) →
        ((Division.create_teams m1 m2 st).err).isSome) := by
  intro m1 m2 st
  refine ⟨?_, ?_, ?_⟩
  · intro h
    obtain ⟨d, hd, hm⟩ := h
    exact team_batch_loop_fail (mkTeamFor m1 m2) st.divisions st ⟨d, hd, hm⟩
  · intro d rest hdiv hc
    show team_batch_loop (mkTeamFor m1 m2) st.divisions st = _
    rw [hdiv]
    exact team_batch_loop_head_exists (mkTeamFor m1 m2) d rest st hc
  · intro h
    obtain ⟨f, hf, hm⟩ := h
    exact team_batch_loop_fail (mkTeamOf m1 m2) st.franchises st ⟨f, hf, hm⟩

theorem C3_witness :
    LdapFranchise.create_teams "east" "East" stC3 =
      ⟨stC3, [Call.createTeam (make_team_machine_name "east" "ops")
               (make_team_display_name "East" "Ops")], some Err.alreadyExists⟩ :=
  (C3_amended_abort_on_rejection "east" "East" stC3).2.1 ⟨"ops", "Ops"⟩ [⟨"sales", "Sales"⟩]
    rfl (by decide)

/-- C6 counterexample: against a directory holding no team named t1, add_to_team still
issues the team membership call, which the gateway rejects, before any lookup; the claim
that no membership calls at all are performed is therefore false at this input. -/
theorem C6_counterexample :
    (LdapUser.add_to_team "alice" "t1" stC6).calls = [Call.memberOfTeam "alice" "t1"] ∧
    (LdapUser.add_to_team "alice" "t1" stC6).calls ≠ [] := by decide

/-- C6 amended: for a team absent from the directory, add_to_team fails with a NotFound
error, the directory state, memberships included, is unchanged, and the only call issued is
the rejected team membership call, so no franchise or division membership calls are made. -/
theorem C6_team_not_found : ∀ u t st,
    t ∉ teamNames st →
    (LdapUser.add_to_team u t st).err = some Err.notFound ∧
    (LdapUser.add_to_team u t st).state = st ∧
    (LdapUser.add_to_team u t st).calls = [Call.memberOfTeam u t] := by
  intro u t st h
  simp only [LdapUser.add_to_team, make_user_member_of_team, if_neg h, andThen_some]
  exact ⟨trivial, trivial, trivial⟩

theorem C6_witness :
    (LdapUser.add_to_team "bob" "t9" stC6).err = some Err.notFound ∧
    (LdapUser.add_to_team "bob" "t9" stC6).state = stC6 ∧
    (LdapUser.add_to_team "bob" "t9" stC6).calls = [Call.memberOfTeam "bob" "t9"] :=
  C6_team_not_found "bob" "t9" stC6 (by decide)

/-- C7: for an existing team with no owning franchise-division pair, such as the everybody
team, add_to_team issues only the team membership call and no franchise or division
membership call; the user is added to the team, after which the method fails unpacking the
missing pair. -/
theorem C7_unpaired_team : ∀ u t st,
    t ∈ teamNames st →
    lookup_pair t st.pairs = none →
    (LdapUser.add_to_team u t st).calls = [Call.memberOfTeam u t] ∧
    (u, GroupRef.team t) ∈ (LdapUser.add_to_team u t st).state.memberships ∧
    (LdapUser.add_to_team u t st).err = some Err.typeError := by
  intro u t st ht hp
  simp only [LdapUser.add_to_team, make_user_member_of_team, if_pos ht, andThen_none,
    get_team_component_units, teamNames_memb, ht, if_true, hp]
  simp

theorem C7_witness :
    (LdapUser.add_to_team "alice" "everybody" stC7).calls =
      [Call.memberOfTeam "alice" "everybody"] ∧
    ("alice", GroupRef.team "everybody") ∈
      (LdapUser.add_to_team "alice" "everybody" stC7).state.memberships ∧
    (LdapUser.add_to_team "alice" "everybody" stC7).err = some Err.typeError :=
  C7_unpaired_team "alice" "everybody" stC7 (by decide) (by decide)

/-- C9: when the groups argument was left at its Python default of None, LdapUser.create
adds the user record and then raises while iterating the missing list: afterwards the user
exists, the memberships are unchanged so the user belongs to no group, not even everybody,
and the only issued call was the user creation. -/
theorem C9_groups_none_raises : ∀ u st,
    u.uid ∉ st.users →
    u.groups = none →
    (LdapUser.create u st).err = some Err.typeError ∧
    (LdapUser.create u st).state.users = u.uid :: st.users ∧
    (LdapUser.create u st).state.memberships = st.memberships ∧
    (LdapUser.create u st).calls = [Call.addUser u.uid] := by
  intro u st hu hg
  simp [LdapUser.create, add_user, if_neg hu, andThen_none, hg]

theorem franchiseNames_memb (st : DirState) (p : String × GroupRef) :
    franchiseNames { st with memberships := p :: st.memberships } = franchiseNames st := rfl

theorem divisionNames_memb (st : DirState) (p : String × GroupRef) :
    divisionNames { st with memberships := p :: st.memberships } = divisionNames st := rfl

/-- C2: for a user and an existing team whose owning franchise and division both exist,
add_to_team issues exactly three membership calls, team then franchise then division, in
that order, and afterwards the user is a member of the team, of the franchise group, and of
the division group. -/
theorem C2_cascade_completeness : ∀ u t fr dv st,
    t ∈ teamNames st →
    lookup_pair t st.pairs = some (fr, dv) →
    fr ∈ franchiseNames st →
    dv ∈ divisionNames st →
    (LdapUser.add_to_team u t st).err = none ∧
    (LdapUser.add_to_team u t st).calls =
      [Call.memberOfTeam u t, Call.memberOfFranchise u fr, Call.memberOfDivision u dv] ∧
    (u, GroupRef.team t) ∈ (LdapUser.add_to_team u t st).state.memberships ∧
    (u, GroupRef.franchise fr) ∈ (LdapUser.add_to_team u t st).state.memberships ∧
    (u, GroupRef.division dv) ∈ (LdapUser.add_to_team u t st).state.memberships := by
  intro u t fr dv st ht hp hf hd
  simp only [teamNames] at ht
  simp only [franchiseNames] at hf
  simp only [divisionNames] at hd
  simp only [LdapUser.add_to_team, make_user_member_of_team, get_team_component_units,
    make_user_member_of_franchise, make_uid_member_of_division, teamNames, franchiseNames,
    divisionNames, ht, hf, hd, if_true, hp, andThen_none]
  simp

theorem C2_witness :
    (LdapUser.add_to_team "alice" "east-ops" stC2).err = none ∧
    (LdapUser.add_to_team "alice" "east-ops" stC2).calls =
      [Call.memberOfTeam "alice" "east-ops", Call.memberOfFranchise "alice" "east",
       Call.memberOfDivision "alice" "ops"] ∧
    ("alice", GroupRef.team "east-ops") ∈
      (LdapUser.add_to_team "alice" "east-ops" stC2).state.memberships ∧
    ("alice", GroupRef.franchise "east") ∈
      (LdapUser.add_to_team "alice" "east-ops" stC2).state.memberships ∧
    ("alice", GroupRef.division "ops") ∈
      (LdapUser.add_to_team "alice" "east-ops" stC2).state.memberships :=
  C2_cascade_completeness "alice" "east-ops" "east" "ops" stC2 (by decide) (by decide)
    (by decide) (by decide)

theorem member_loop_spec (uid : String) (gs : List String) (st : DirState) :
    member_loop uid gs st =
      ⟨{ st with memberships :=
          (gs.map (fun g => (uid, GroupRef.other g))).reverse ++ st.memberships },
        gs.map (fun g => Call.memberOf uid g), none⟩ := by
  induction gs generalizing st with
  | nil => simp [member_loop]
  | cons g rest ih =>
    simp only [member_loop, make_uid_member_of, andThen_none, ih]
    simp [List.append_assoc]

/-- C4: for a user whose groups argument is an actual list, LdapUser.create first creates
the user record, then adds a membership for each listed group, and adds the everybody team
membership last and unconditionally; on full success the user is a member of everybody,
whatever the initial list was, even the empty one. -/
theorem C4_provisioning : ∀ u gs st,
    u.uid ∉ st.users →
    u.groups = some gs →
    (LdapUser.create u st).err = none ∧
    (∃ mid, (LdapUser.create u st).calls =
        Call.addUser u.uid :: (gs.map (fun g => Call.memberOf u.uid g) ++ mid ++
          [Call.memberOfTeam u.uid EVERYBODY_MACHINE_NAME])) ∧
    (u.uid, GroupRef.team EVERYBODY_MACHINE_NAME) ∈ (LdapUser.create u st).state.memberships ∧
    (∀ g ∈ gs, (u.uid, GroupRef.other g) ∈ (LdapUser.create u st).state.memberships) ∧
    u.uid ∈ (LdapUser.create u st).state.users := by
  intro u gs st hu hg
  by_cases he : EVERYBODY_MACHINE_NAME ∈ teamNames st
  · have hrun : LdapUser.create u st =
        ⟨{ st with
            users := u.uid :: st.users
            memberships := (u.uid, GroupRef.team EVERYBODY_MACHINE_NAME) ::
              ((gs.map (fun g => (u.uid, GroupRef.other g))).reverse ++ st.memberships) },
          Call.addUser u.uid :: (gs.map (fun g => Call.memberOf u.uid g) ++
            [Call.memberOfTeam u.uid EVERYBODY_MACHINE_NAME]), none⟩ := by
      simp [teamNames] at he
      simp [LdapUser.create, add_user, hu, hg, andThen_none, member_loop_spec,
        LdapTeam.get_everybody_team, make_user_member_of_team, teamNames, he]
    rw [hrun]
    refine ⟨rfl, ⟨[], by simp⟩, List.mem_cons_self _ _, ?_, List.mem_cons_self _ _⟩
    intro g hgin
    exact List.mem_cons_of_mem _
      (List.mem_append.mpr (Or.inl (List.mem_reverse.mpr (List.mem_map_of_mem _ hgin))))
  · have hrun : LdapUser.create u st =
        ⟨{ st with
            users := u.uid :: st.users
            teams := ⟨EVERYBODY_MACHINE_NAME, EVERYBODY_DISPLAY_NAME⟩ :: st.teams
            memberships := (u.uid, GroupRef.team EVERYBODY_MACHINE_NAME) ::
              ((gs.map (fun g => (u.uid, GroupRef.other g))).reverse ++ st.memberships) },
          Call.addUser u.uid :: (gs.map (fun g => Call.memberOf u.uid g) ++
            [Call.createTeam EVERYBODY_MACHINE_NAME EVERYBODY_DISPLAY_NAME,
             Call.memberOfTeam u.uid EVERYBODY_MACHINE_NAME]), none⟩ := by
      have hne : ¬ ∃ a ∈ st.teams, a.machine_name = EVERYBODY_MACHINE_NAME := by
        simpa [teamNames] using he
      simp [LdapUser.create, add_user, hu, hg, andThen_none, member_loop_spec,
        LdapTeam.get_everybody_team, create_team, make_user_member_of_team, teamNames, hne]
    rw [hrun]
    refine ⟨rfl, ⟨[Call.createTeam EVERYBODY_MACHINE_NAME EVERYBODY_DISPLAY_NAME], by simp⟩,
      List.mem_cons_self _ _, ?_, List.mem_cons_self _ _⟩
    intro g hgin
    exact List.mem_cons_of_mem _
      (List.mem_append.mpr (Or.inl (List.mem_reverse.mpr (List.mem_map_of_mem _ hgin))))

theorem C4_witness :
    (LdapUser.create ⟨"carol", some ["g1"]⟩ stC7).err = none ∧
    ("carol", GroupRef.team EVERYBODY_MACHINE_NAME) ∈
      (LdapUser.create ⟨"carol", some ["g1"]⟩ stC7).state.memberships ∧
    ("carol", GroupRef.other "g1") ∈
      (LdapUser.create ⟨"carol", some ["g1"]⟩ stC7).state.memberships ∧
    "carol" ∈ (LdapUser.create ⟨"carol", some ["g1"]⟩ stC7).state.users := by
  have h := C4_provisioning ⟨"carol", some ["g1"]⟩ ["g1"] stC7 (by decide) rfl
  exact ⟨h.1, h.2.2.1, h.2.2.2.1 "g1" (by decide), h.2.2.2.2⟩

theorem C9_witness :
    (LdapUser.create ⟨"bob", none⟩ stC7).err = some Err.typeError ∧
    (LdapUser.create ⟨"bob", none⟩ stC7).state.users = "bob" :: stC7.users ∧
    (LdapUser.create ⟨"bob", none⟩ stC7).state.memberships = stC7.memberships ∧
    (LdapUser.create ⟨"bob", none⟩ stC7).calls = [Call.addUser "bob"] :=
  C9_groups_none_raises ⟨"bob", none⟩ stC7 (by decide) rfl

theorem alookup_aset_self (k : String) (v : MergedEntry) (m : List (String × MergedEntry)) :
    alookup k (aset k v m) = some v := by
  induction m with
  | nil => simp [aset, alookup]
  | cons p rest ih =>
    obtain ⟨k0, v0⟩ := p
    by_cases hk : k0 = k
    · simp [aset, alookup, hk]
    · simp [aset, alookup, hk, ih]

theorem alookup_aset_ne (k k2 : String) (v : MergedEntry) (m : List (String × MergedEntry))
    (h : k2 ≠ k) :
    alookup k (aset k2 v m) = alookup k m := by
  induction m with
  | nil => simp [aset, alookup, h]
  | cons p rest ih =>
    obtain ⟨k0, v0⟩ := p
    by_cases hk : k0 = k2
    · subst hk
      simp [aset, alookup, h]
    · by_cases hk2 : k0 = k
      · simp [aset, alookup, hk, hk2, h.symm]
      · simp [aset, alookup, hk, hk2, ih]

theorem merge_divisions_def (cfg : List (String × String)) (lds : List LdapDivisionRaw) :
    merge_divisions cfg lds = merge_loop2 lds (merge_loop1 cfg []) := rfl

theorem merge_loop1_not_mem (cfg : List (String × String)) (k : String) :
    ∀ m, k ∉ cfgKeys cfg → alookup k (merge_loop1 cfg m) = alookup k m := by
  induction cfg with
  | nil => intro m _; rfl
  | cons p rest ih =>
    intro m h
    obtain ⟨k0, dn⟩ := p
    simp only [cfgKeys, List.map_cons] at h
    have hk0 : k0 ≠ k := fun e => h (List.mem_cons.mpr (Or.inl e.symm))
    have hrest : k ∉ cfgKeys rest := fun hx => h (List.mem_cons.mpr (Or.inr hx))
    simp only [merge_loop1]
    rw [ih _ hrest, alookup_aset_ne _ _ _ _ hk0]

theorem merge_loop1_mem (cfg : List (String × String)) (k v : String) :
    ∀ m, (cfgKeys cfg).Nodup → (k, v) ∈ cfg →
      alookup k (merge_loop1 cfg m) = some ⟨true, false, some v, none⟩ := by
  induction cfg with
  | nil => intro m _ h; simp at h
  | cons p rest ih =>
    intro m hnd h
    obtain ⟨k0, dn⟩ := p
    simp only [cfgKeys, List.map_cons, List.nodup_cons] at hnd
    rcases List.mem_cons.mp h with heq | hrest
    · injection heq with h1 h2
      subst h1
      subst h2
      simp only [merge_loop1]
      rw [merge_loop1_not_mem rest k _ hnd.1, alookup_aset_self]
    · simp only [merge_loop1]
      exact ih _ hnd.2 hrest

theorem merge_step_self (m : List (String × MergedEntry)) (ld : LdapDivisionRaw) :
    alookup ld.cn (merge_step m ld) = some (updE (alookup ld.cn m) ld.description) := by
  cases halo : alookup ld.cn m with
  | some e =>
    simp only [merge_step, halo]
    rw [alookup_aset_self]
    rfl
  | none =>
    simp only [merge_step, halo]
    rw [alookup_aset_self]
    rfl

theorem merge_step_ne (m : List (String × MergedEntry)) (ld : LdapDivisionRaw) (k : String)
    (h : k ≠ ld.cn) :
    alookup k (merge_step m ld) = alookup k m := by
  cases halo : alookup ld.cn m with
  | some e =>
    simp only [merge_step, halo]
    exact alookup_aset_ne _ _ _ _ h.symm
  | none =>
    simp only [merge_step, halo]
    exact alookup_aset_ne _ _ _ _ h.symm

theorem merge_loop2_not_mem (lds : List LdapDivisionRaw) (k : String) :
    ∀ m, k ∉ ldapKeys lds → alookup k (merge_loop2 lds m) = alookup k m := by
  induction lds with
  | nil => intro m _; rfl
  | cons ld rest ih =>
    intro m h
    simp only [ldapKeys, List.map_cons] at h
    have h1 : k ≠ ld.cn := fun e => h (List.mem_cons.mpr (Or.inl e))
    have h2 : k ∉ ldapKeys rest := fun hx => h (List.mem_cons.mpr (Or.inr hx))
    simp only [merge_loop2]
    rw [ih _ h2, merge_step_ne _ _ _ h1]

theorem updE_updE (o : Option MergedEntry) (d d2 : Option String) :
    updE (some (updE o d)) d2 = updE o d2 := by
  cases o <;> rfl

theorem merge_loop2_mem (lds : List LdapDivisionRaw) (k : String) :
    ∀ m, k ∈ ldapKeys lds →
      ∃ dd, alookup k (merge_loop2 lds m) = some (updE (alookup k m) dd) := by
  induction lds with
  | nil => intro m h; simp [ldapKeys] at h
  | cons ld rest ih =>
    intro m h
    by_cases hk : k = ld.cn
    · by_cases hr : k ∈ ldapKeys rest
      · obtain ⟨dd, hdd⟩ := ih (merge_step m ld) hr
        refine ⟨dd, ?_⟩
        simp only [merge_loop2]
        rw [hdd, hk, merge_step_self, updE_updE]
      · refine ⟨ld.description, ?_⟩
        simp only [merge_loop2]
        rw [merge_loop2_not_mem rest k _ hr, hk, merge_step_self]
    · have hr : k ∈ ldapKeys rest := by
        simp only [ldapKeys, List.map_cons] at h
        rcases List.mem_cons.mp h with e | hx
        · exact absurd e hk
        · exact hx
      obtain ⟨dd, hdd⟩ := ih (merge_step m ld) hr
      refine ⟨dd, ?_⟩
      simp only [merge_loop2]
      rw [hdd, merge_step_ne _ _ _ hk]

/-- C5: merge_divisions is a pure function of its two inputs; the key set of the merged
mapping is the union of the config keys and the directory keys; a key in both sources gets
both existence booleans true, the config display name, and a populated ldap display name
field; a key in only one source gets the other existence boolean false and the other
display-name field absent; and merging empty inputs yields the empty mapping. -/
theorem C5_reconcile_merge : ∀ cfg lds,
    (cfgKeys cfg).Nodup →
    (merge_divisions [] [] = []) ∧
    (∀ k, (alookup k (merge_divisions cfg lds)).isSome ↔
        (k ∈ cfgKeys cfg ∨ k ∈ ldapKeys lds)) ∧
    (∀ k v, (k, v) ∈ cfg → k ∈ ldapKeys lds →
        ∃ e, alookup k (merge_divisions cfg lds) = some e ∧
          e.exists_in_config = true ∧ e.exists_in_ldap = true ∧
          e.config_display_name = some v ∧ (e.ldap_display_name).isSome) ∧
    (∀ k v, (k, v) ∈ cfg → k ∉ ldapKeys lds →
        alookup k (merge_divisions cfg lds) = some ⟨true, false, some v, none⟩) ∧
    (∀ k, k ∉ cfgKeys cfg → k ∈ ldapKeys lds →
        ∃ dd, alookup k (merge_divisions cfg lds) = some ⟨false, true, none, some dd⟩) := by
  intro cfg lds hnd
  refine ⟨rfl, ?_, ?_, ?_, ?_⟩
  · intro k
    constructor
    · intro hs
      by_contra hn
      push_neg at hn
      obtain ⟨h1, h2⟩ := hn
      rw [merge_divisions_def, merge_loop2_not_mem lds k _ h2,
        merge_loop1_not_mem cfg k _ h1] at hs
      simp [alookup] at hs
    · intro hor
      rw [merge_divisions_def]
      rcases hor with hc | hl
      · obtain ⟨⟨k2, v⟩, hp, hk⟩ := List.mem_map.mp hc
        simp only at hk
        subst hk
        by_cases hl2 : k2 ∈ ldapKeys lds
        · obtain ⟨dd, hdd⟩ := merge_loop2_mem lds k2 (merge_loop1 cfg []) hl2
          rw [hdd]
          rfl
        · rw [merge_loop2_not_mem lds k2 _ hl2, merge_loop1_mem cfg k2 v _ hnd hp]
          rfl
      · obtain ⟨dd, hdd⟩ := merge_loop2_mem lds k (merge_loop1 cfg []) hl
        rw [hdd]
        rfl
  · intro k v hkv hl
    obtain ⟨dd, hdd⟩ := merge_loop2_mem lds k (merge_loop1 cfg []) hl
    rw [merge_loop1_mem cfg k v _ hnd hkv] at hdd
    refine ⟨updE (some ⟨true, false, some v, none⟩) dd, ?_, rfl, rfl, rfl, rfl⟩
    rw [merge_divisions_def]
    exact hdd
  · intro k v hkv hl
    rw [merge_divisions_def, merge_loop2_not_mem lds k _ hl,
      merge_loop1_mem cfg k v _ hnd hkv]
  · intro k hc hl
    obtain ⟨dd, hdd⟩ := merge_loop2_mem lds k (merge_loop1 cfg []) hl
    rw [merge_loop1_not_mem cfg k _ hc] at hdd
    refine ⟨dd, ?_⟩
    rw [merge_divisions_def]
    exact hdd

theorem C5_witness :
    (alookup "na" (merge_divisions cfgEx ldsEx)).isSome ∧
    alookup "na2" (merge_divisions cfgEx ldsEx) = some ⟨true, false, some "X", none⟩ := by
  have h := C5_reconcile_merge cfgEx ldsEx (by decide)
  exact ⟨(h.2.1 "na").mpr (Or.inl (by decide)), h.2.2.2.1 "na2" "X" (by decide) (by decide)⟩

theorem path_ne_container (g : String) : GROUP_FOLDER ++ "/" ++ g ≠ GROUP_FOLDER := by
  intro h
  have hlen := congrArg String.length h
  rw [String.length_append, String.length_append] at hlen
  have h1 : ("/" : String).length = 1 := rfl
  rw [h1] at hlen
  omega

theorem countCall_append (c : NxcCall) (l1 l2 : List NxcCall) :
    countCall c (l1 ++ l2) = countCall c l1 + countCall c l2 := by
  induction l1 with
  | nil => simp [countCall]
  | cons x rest ih => simp [countCall, ih, Nat.add_assoc]

theorem create_folder_ok_iff (g : String) (st : NxcState) :
    (Franchise.create_folder g st).2.2 = true ↔
      ((GROUP_FOLDER ++ "/" ++ g) ∉ st.createFails ∧
       ((GROUP_FOLDER ++ "/" ++ g), g) ∉ st.grantFails ∧
       ((GROUP_FOLDER ++ "/" ++ g), EVERYBODY_MACHINE_NAME) ∉ st.grantFails) := by
  by_cases hb : GROUP_FOLDER ∈ st.folders <;>
  by_cases hcm : GROUP_FOLDER ∈ st.createFails <;>
  by_cases hsub : (GROUP_FOLDER ++ "/" ++ g) ∈ st.createFails <;>
  simp [Franchise.create_folder, Franchise.create_main_folder, create_group_folder,
    grant_access_to_group_folder, set_permissions_to_group_folder, get_group_folder,
    hb, hcm, hsub, and_assoc]

theorem create_folder_calls_absent (g : String) (st : NxcState)
    (hb : GROUP_FOLDER ∉ st.folders) :
    (Franchise.create_folder g st).2.1 =
      NxcCall.createFolder GROUP_FOLDER ::
      NxcCall.grantAccess GROUP_FOLDER EVERYBODY_MACHINE_NAME ::
      NxcCall.setPermission GROUP_FOLDER EVERYBODY_MACHINE_NAME "1" ::
      NxcCall.createFolder (GROUP_FOLDER ++ "/" ++ g) ::
      NxcCall.grantAccess (GROUP_FOLDER ++ "/" ++ g) g ::
      [NxcCall.grantAccess (GROUP_FOLDER ++ "/" ++ g) EVERYBODY_MACHINE_NAME] := by
  simp [Franchise.create_folder, Franchise.create_main_folder, create_group_folder,
    grant_access_to_group_folder, set_permissions_to_group_folder, get_group_folder, hb]

theorem create_folder_calls_present (g : String) (st : NxcState)
    (hb : GROUP_FOLDER ∈ st.folders) :
    (Franchise.create_folder g st).2.1 =
      NxcCall.createFolder (GROUP_FOLDER ++ "/" ++ g) ::
      NxcCall.grantAccess (GROUP_FOLDER ++ "/" ++ g) g ::
      [NxcCall.grantAccess (GROUP_FOLDER ++ "/" ++ g) EVERYBODY_MACHINE_NAME] := by
  simp [Franchise.create_folder, Franchise.create_main_folder, create_group_folder,
    grant_access_to_group_folder, set_permissions_to_group_folder, get_group_folder, hb]

theorem create_folder_container_persists (g : String) (st : NxcState)
    (hb : GROUP_FOLDER ∈ st.folders ∨ GROUP_FOLDER ∉ st.createFails) :
    GROUP_FOLDER ∈ (Franchise.create_folder g st).1.folders := by
  rcases hb with hb2 | hc
  · by_cases hsub : (GROUP_FOLDER ++ "/" ++ g) ∈ st.createFails <;>
    by_cases hcm : GROUP_FOLDER ∈ st.createFails <;>
    simp [Franchise.create_folder, Franchise.create_main_folder, create_group_folder,
      grant_access_to_group_folder, set_permissions_to_group_folder, get_group_folder,
      hb2, hsub, hcm]
  · by_cases hb2 : GROUP_FOLDER ∈ st.folders <;>
    by_cases hsub : (GROUP_FOLDER ++ "/" ++ g) ∈ st.createFails <;>
    simp [Franchise.create_folder, Franchise.create_main_folder, create_group_folder,
      grant_access_to_group_folder, set_permissions_to_group_folder, get_group_folder,
      hb2, hc, hsub]

/-- C8: createFranchiseFolder reports overall success exactly when the subfolder creation
call and both access grant calls succeed, and the top-level container folder, with its
everybody grant, is created only when it is absent, so creating two franchise folders in a
row creates the container and issues its everybody grant exactly once. -/
theorem C8_folder_provisioning : ∀ st f1 f2,
    (∀ st0 g, (Franchise.create_folder g st0).2.2 = true ↔
        ((GROUP_FOLDER ++ "/" ++ g) ∉ st0.createFails ∧
         ((GROUP_FOLDER ++ "/" ++ g), g) ∉ st0.grantFails ∧
         ((GROUP_FOLDER ++ "/" ++ g), EVERYBODY_MACHINE_NAME) ∉ st0.grantFails)) ∧
    (GROUP_FOLDER ∉ st.folders → GROUP_FOLDER ∉ st.createFails →
        countCall (NxcCall.createFolder GROUP_FOLDER)
          ((Franchise.create_folder f1 st).2.1 ++
            (Franchise.create_folder f2 (Franchise.create_folder f1 st).1).2.1) = 1 ∧
        countCall (NxcCall.grantAccess GROUP_FOLDER EVERYBODY_MACHINE_NAME)
          ((Franchise.create_folder f1 st).2.1 ++
            (Franchise.create_folder f2 (Franchise.create_folder f1 st).1).2.1) = 1) := by
  intro st f1 f2
  constructor
  · intro st0 g
    exact create_folder_ok_iff g st0
  · intro hb hc
    have h1 := create_folder_calls_absent f1 st hb
    have hcont : GROUP_FOLDER ∈ (Franchise.create_folder f1 st).1.folders :=
      create_folder_container_persists f1 st (Or.inr hc)
    have h2 := create_folder_calls_present f2 _ hcont
    rw [h1, h2, countCall_append]
    constructor <;>
    simp [countCall, path_ne_container f1, path_ne_container f2]

theorem C8_witness :
    ((Franchise.create_folder "alpha" nxcEx).2.2 = true) ∧
    countCall (NxcCall.createFolder GROUP_FOLDER)
      ((Franchise.create_folder "alpha" nxcEx).2.1 ++
        (Franchise.create_folder "beta" (Franchise.create_folder "alpha" nxcEx).1).2.1) = 1 ∧
    countCall (NxcCall.grantAccess GROUP_FOLDER EVERYBODY_MACHINE_NAME)
      ((Franchise.create_folder "alpha" nxcEx).2.1 ++
        (Franchise.create_folder "beta" (Franchise.create_folder "alpha" nxcEx).1).2.1) = 1 := by
  have h := C8_folder_provisioning nxcEx "alpha" "beta"
  exact ⟨(h.1 nxcEx "alpha").mpr ⟨by decide, by decide, by decide⟩,
    (h.2 (by decide) (by decide)).1, (h.2 (by decide) (by decide)).2⟩

theorem create_franchise_fresh (m : String) (st : DirState) (h : m ∉ franchiseNames st) :
    create_franchise m st =
      ⟨{ st with franchises := ⟨m, label_franchise st m⟩ :: st.franchises },
        [Call.createFranchise m], none⟩ := by
  simp only [create_franchise, if_neg h]

theorem ldapFranchiseCreate_fresh (m d : String) (st : DirState)
    (h : m ∉ franchiseNames st) :
    LdapFranchise.create m d st =
      (⟨(LdapFranchise.create_teams m (encodeUTF8 (label_franchise st m))
          { st with franchises := ⟨m, label_franchise st m⟩ :: st.franchises }).state,
        Call.createFranchise m ::
          (LdapFranchise.create_teams m (encodeUTF8 (label_franchise st m))
            { st with franchises := ⟨m, label_franchise st m⟩ :: st.franchises }).calls,
        (LdapFranchise.create_teams m (encodeUTF8 (label_franchise st m))
          { st with franchises := ⟨m, label_franchise st m⟩ :: st.franchises }).err⟩,
       encodeUTF8 (label_franchise st m)) := by
  unfold LdapFranchise.create
  rw [create_franchise_fresh m st h]
  rfl

/-- C10: LdapFranchise.create overwrites the display name field of the object with the
encoded directory label of its machine name, so the outcome never depends on the caller
supplied display name, the returned display name equals the encoded label, and when the
subsequent create_teams batch completes, every created team display name is derived from
that label together with the division display name. -/
theorem C10_display_from_directory_label : ∀ m d1 d2 st,
    m ∉ franchiseNames st →
    (LdapFranchise.create m d1 st = LdapFranchise.create m d2 st) ∧
    ((LdapFranchise.create m d1 st).2 = encodeUTF8 (label_franchise st m)) ∧
    ((LdapFranchise.create m d1 st).1.err = none →
      ((LdapFranchise.create m d1 st).1.state).teams =
        (st.divisions.map (fun dv =>
          (⟨make_team_machine_name m dv.machine_name,
            make_team_display_name (encodeUTF8 (label_franchise st m))
              dv.display_name⟩ : TeamRec))).reverse ++ st.teams) := by
  intro m d1 d2 st h
  refine ⟨by rw [ldapFranchiseCreate_fresh m d1 st h, ldapFranchiseCreate_fresh m d2 st h],
    by rw [ldapFranchiseCreate_fresh m d1 st h], ?_⟩
  rw [ldapFranchiseCreate_fresh m d1 st h]
  intro herr
  have herr2 : (team_batch_loop (mkTeamFor m (encodeUTF8 (label_franchise st m)))
      st.divisions
      { st with franchises := ⟨m, label_franchise st m⟩ :: st.franchises }).err = none := herr
  have hok := team_batch_loop_ok _ _ _ herr2
  exact congrArg DirState.teams hok

theorem C10_witness :
    LdapFranchise.create "west" "CallerName" exSt1 = LdapFranchise.create "west" "Zzz" exSt1 ∧
    (LdapFranchise.create "west" "CallerName" exSt1).2 = "West Label" ∧
    ((LdapFranchise.create "west" "CallerName" exSt1).1.state).teams =
      (exSt1.divisions.map (fun dv =>
        (⟨make_team_machine_name "west" dv.machine_name,
          make_team_display_name "West Label" dv.display_name⟩ : TeamRec))).reverse ++
        exSt1.teams := by
  have h := C10_display_from_directory_label "west" "CallerName" "Zzz" exSt1 (by decide)
  refine ⟨h.1, ?_, ?_⟩
  · rw [h.2.1]
    decide
  · have h2 := h.2.2 (by decide)
    exact h2.trans (by decide)

end Teap
